import Mathlib

/-
Verification of the oma repository refresh and download engine.

Strings are modelled as lists of characters (`Str`), because the claims
require evaluating string operations inside the kernel.  Each definition
below embeds one Rust item of the repository; the file and line numbers in
the doc comments point into the source tree.  Machine integers (the
`AtomicU64` global progress counter) are modelled as `Nat` with explicit
reduction modulo 2 ^ 64.  Definitions that correspond to code that lives in
a crate of the repository whose source file is not available (the lib.rs of
oma-fetch) are marked as modelled from the spec.
-/

/-- Character-list model of Rust `String` / `str`. -/
abbrev Str := List Char

/-- Turn a Lean string literal into its character-list model. -/
def str (s : String) : Str := s.toList

instance {ε α : Type} [DecidableEq ε] [DecidableEq α] : DecidableEq (Except ε α)
  | .ok a, .ok b =>
    if h : a = b then .isTrue (by rw [h]) else .isFalse (fun hh => h (Except.ok.inj hh))
  | .error a, .error b =>
    if h : a = b then .isTrue (by rw [h]) else .isFalse (fun hh => h (Except.error.inj hh))
  | .ok _, .error _ => .isFalse (fun hh => Except.noConfusion hh)
  | .error _, .ok _ => .isFalse (fun hh => Except.noConfusion hh)

/-- Model of Rust `str::starts_with`. -/
def starts_with : Str → Str → Bool
  | _, [] => true
  | [], _ :: _ => false
  | a :: s, b :: p => a == b && starts_with s p

/-- Model of Rust `str::ends_with`. -/
def ends_with (s p : Str) : Bool := starts_with s.reverse p.reverse

/-- Model of Rust `str::contains` with a string pattern (substring search). -/
def contains_sub (s pat : Str) : Bool :=
  starts_with s pat ||
    match s with
    | [] => false
    | _ :: rest => contains_sub rest pat

/-- Model of Rust `str::contains` with a `char` pattern. -/
def contains_char (s : Str) (c : Char) : Bool := s.contains c

/-- Model of Rust `str::split_whitespace`: split at whitespace and drop the
empty fragments that consecutive separators produce. -/
def whitespace_tokens (s : Str) : List Str :=
  (s.splitOnP (fun c => c.isWhitespace)).filter (fun t => t ≠ [])

/-- Model of Rust `str::split(c)` (the fragments between occurrences of a
single separator character, empty fragments kept). -/
def split_char (c : Char) (s : Str) : List Str := List.splitOn c s

/-- Wrap-around bound of the `AtomicU64` global progress counter. -/
def U64MOD : Nat := 2 ^ 64

/-- Model of `AtomicU64::fetch_add` / wrapping addition on the counter value. -/
def u64_add (a b : Nat) : Nat := (a + b) % U64MOD

/-- Model of `AtomicU64::fetch_sub` / wrapping subtraction on the counter value. -/
def u64_sub (a b : Nat) : Nat := (a + (U64MOD - b % U64MOD)) % U64MOD

-- basic sanity facts about the helpers, used by several proofs below

theorem starts_with_mem {l p : Str} (h : starts_with l p = true) : ∀ a ∈ p, a ∈ l := by
  induction p generalizing l with
  | nil => intro a ha; cases ha
  | cons b q ih =>
    cases l with
    | nil => simp [starts_with] at h
    | cons x xs =>
      simp only [starts_with, Bool.and_eq_true, beq_iff_eq] at h
      intro a ha
      rcases List.mem_cons.mp ha with rfl | ha
      · exact List.mem_cons.mpr (Or.inl h.1.symm)
      · exact List.mem_cons.mpr (Or.inr (ih h.2 a ha))

theorem ends_with_gz_contains_dot {x : Str} (h : ends_with x (str ".gz") = true) :
    contains_char x '.' = true := by
  have hmem : '.' ∈ x.reverse := starts_with_mem h '.' (by decide)
  have : '.' ∈ x := List.mem_reverse.mp hmem
  simpa [contains_char, List.contains] using List.elem_eq_true_of_mem this

theorem ends_with_xz_contains_dot {x : Str} (h : ends_with x (str ".xz") = true) :
    contains_char x '.' = true := by
  have hmem : '.' ∈ x.reverse := starts_with_mem h '.' (by decide)
  have : '.' ∈ x := List.mem_reverse.mp hmem
  simpa [contains_char, List.contains] using List.elem_eq_true_of_mem this

theorem ends_with_bz2_contains_dot {x : Str} (h : ends_with x (str ".bz2") = true) :
    contains_char x '.' = true := by
  have hmem : '.' ∈ x.reverse := starts_with_mem h '.' (by decide)
  have : '.' ∈ x := List.mem_reverse.mp hmem
  simpa [contains_char, List.contains] using List.elem_eq_true_of_mem this

/-
oma-fetch (src/oma-fetch/src/download.rs).

The crate root lib.rs of oma-fetch (defining DownloadEntry, Summary,
DownloadEvent, DownloadError, DownloadSourceType) is not part of the
source tree given; those items are reconstructed from the way download.rs
uses them, and where that is not enough they are modelled from the spec and
marked as such.
-/

/-- Source type of one download source.  Declared in the missing oma-fetch
lib.rs; the two variants appear in the match of try_download
(download.rs:44-70). -/
inductive DownloadSourceType
  | Http
  | Local
  deriving DecidableEq

/-- Modelled from the spec: the Ord instance of DownloadSourceType used by
sources.sort_by in try_download (download.rs:39) lives in the missing
oma-fetch lib.rs.  The spec says sources are tried in source-type order,
local before http, so Local orders strictly before Http. -/
def source_type_le (a b : DownloadSourceType) : Bool :=
  match a, b with
  | .Local, _ => true
  | .Http, .Http => true
  | .Http, .Local => false

/-- One candidate source of a download entry (url + source_type, the two
fields download.rs reads from it). -/
structure DownloadSource where
  url : Str
  source_type : DownloadSourceType
  deriving DecidableEq

/-- One fetch plan.  Fields are the ones download.rs reads:
entry.source, entry.filename, entry.dir, entry.hash, entry.allow_resume,
entry.extract. -/
structure DownloadEntry where
  source : List DownloadSource
  filename : Str
  dir : Str
  hash : Option Str
  allow_resume : Bool
  extract : Bool
  deriving DecidableEq

/-- Result summary of one plan.  The constructor calls visible in
download.rs are Summary::new(filename, b, count, context) with b = false on
the cache-hit path (line 214) and b = true after a body transfer (line 435)
and after a local copy (line 495); the flag therefore records whether the
file was (re)written. -/
structure Summary where
  filename : Str
  wrote : Bool
  count : Nat
  context : Option Str
  deriving DecidableEq

/-- Model of Summary::new (argument order as at the call sites). -/
def Summary.new (filename : Str) (wrote : Bool) (count : Nat) (context : Option Str) : Summary :=
  ⟨filename, wrote, count, context⟩

/-- Modelled from the spec: the hit-cache flag of a Summary.  The spec says
the flag is true exactly when the existing file already matched the
expected checksum and no bytes were transferred; at the call sites that is
the negation of the written flag (false is passed on the cache-hit path,
true on both paths that write the file). -/
def Summary.hit (s : Summary) : Bool := !s.wrote

/-- Download progress events (constructor set as emitted in download.rs and
listed in the spec). -/
inductive DownloadEvent
  | NewProgressSpinner (msg : Str)
  | NewProgress (total : Nat) (msg : Str)
  | ProgressInc (n : Nat)
  | GlobalProgressInc (n : Nat)
  | GlobalProgressSet (v : Nat)
  | ProgressDone
  | ChecksumMismatchRetry (filename : Str) (times : Nat)
  | CanNotGetSourceNextUrl (err : Str)
  | AllDone
  deriving DecidableEq

/-- Download errors (constructor set as used in download.rs; payloads are
the strings the code passes). -/
inductive DownloadError
  | ChecksumMisMatch (url : Str) (dir : Str)
  | NotFound (url : Str)
  | InvaildURL (url : Str)
  | FailedOpenLocalSourceFile (filename : Str) (msg : Str)
  | ReqwestError (msg : Str)
  | IOError (msg : Str)
  deriving DecidableEq

/-- Modelled from the spec: the Display implementation of DownloadError
(derived by thiserror in the missing lib.rs) only feeds the
CanNotGetSourceNextUrl event; no claim depends on the exact text, so any
total stand-in for e.to_string() is adequate. -/
def dl_error_string : DownloadError → Str
  | .ChecksumMisMatch u d => str "checksum mismatch " ++ u ++ str " " ++ d
  | .NotFound u => str "not found " ++ u
  | .InvaildURL u => str "invalid url " ++ u
  | .FailedOpenLocalSourceFile f m => str "failed open local source file " ++ f ++ str " " ++ m
  | .ReqwestError m => str "reqwest error " ++ m
  | .IOError m => str "io error " ++ m

/-- Sum of the payloads of the GlobalProgressInc events of a list. -/
def ev_global_inc_total : List DownloadEvent → Nat
  | [] => 0
  | .GlobalProgressInc n :: rest => n + ev_global_inc_total rest
  | _ :: rest => ev_global_inc_total rest

/-- Number of ProgressDone events in a list. -/
def count_progress_done : List DownloadEvent → Nat
  | [] => 0
  | .ProgressDone :: rest => 1 + count_progress_done rest
  | _ :: rest => count_progress_done rest

/-- The pre-existing-file read loop of http_download (download.rs:188-204):
each iteration reads one chunk from the existing file (the filesystem
chooses the chunk sizes, at most 4096 bytes each, and the loop stops once
the byte counts sum to the file size), feeds the validator, adds the chunk
size to the global counter with fetch_add and emits GlobalProgressInc.
`reads` is the list of per-iteration byte counts; the returned pair is the
emitted events and the final counter value. -/
def read_validate_loop (reads : List Nat) (g : Nat) : List DownloadEvent × Nat :=
  match reads with
  | [] => ([], g)
  | k :: rest =>
    let (evs, g2) := read_validate_loop rest (u64_add g k)
    (.GlobalProgressInc k :: evs, g2)

/-- Outcome of the pre-existing-file check of http_download:
`done` is the early return at download.rs:214 (checksum matched, the
function returns before any HEAD or GET request is issued);
`proceed` means the function goes on to the HEAD probe and the GET body
request, with `resume_validator` recording whether the open handle and the
fed validator are kept for a range continuation (download.rs:227-230). -/
inductive CacheCheckResult
  | done (events : List DownloadEvent) (global : Nat) (summary : Summary)
  | proceed (events : List DownloadEvent) (global : Nat) (resume_validator : Bool)
  deriving DecidableEq

/-- Number of GET body requests http_download issues after the
pre-existing-file check: zero when it returned early at the checksum-match
path, one otherwise (the code always issues exactly one GET at
download.rs:293 once it proceeds). -/
def CacheCheckResult.body_requests : CacheCheckResult → Nat
  | .done _ _ _ => 0
  | .proceed _ _ _ => 1

/-- The pre-existing-file check of http_download (download.rs:153-232).
`sha_match content h` abstracts the SHA256 validator round
(Checksum::from_sha256_str(h), update over the read chunks, finish):
it holds exactly when the file bytes hash to the expected hex digest.
`file_content` is the content of the destination file when it exists,
`reads` the chunk sizes of the read loop (their sum is the file size),
`global` the current global progress counter.  On a checksum match the
code emits ProgressDone and returns Summary::new(filename, false, count,
context); on a mismatch with allow_resume = false it calls fetch_sub twice
with the read byte count while emitting GlobalProgressSet with the value
the second fetch_sub returns (the value after the first subtraction);
on a mismatch with allow_resume it keeps the handle and validator. -/
def http_download_precheck (sha_match : List Nat → Str → Bool) (entry : DownloadEntry)
    (file_content : Option (List Nat)) (reads : List Nat) (global : Nat)
    (list_count : Nat) (context : Option Str) : CacheCheckResult :=
  match file_content, entry.hash with
  | some content, some h =>
    let (evs, g1) := read_validate_loop reads global
    let readed := reads.sum
    if sha_match content h then
      .done (evs ++ [.ProgressDone]) g1 (Summary.new entry.filename false list_count context)
    else if !entry.allow_resume then
      let g2 := u64_sub g1 readed
      let g3 := u64_sub g2 readed
      .proceed (evs ++ [.GlobalProgressSet g2]) g3 false
    else
      .proceed evs g1 true
  | _, _ => .proceed [] global false

/-- The retry loop of try_http_download (download.rs:105-137), reindexed
for structural recursion: the local counter `times` of the source starts at
0 and the loop stops retrying when retry_times == times, so with
k := retry_times - times the loop runs on k counting down and
times = retry_times - k.  `oracle times` is the result of the
(times+1)-th call of http_download (each such call issues at most one GET
body request).  Returns (events emitted by this loop itself, number of
http_download calls made, final result).  Only a ChecksumMisMatch error is
retried (after emitting ChecksumMismatchRetry with the error payload and
the current times); any other error and any success return immediately. -/
def try_http_download_go (oracle : Nat → Except DownloadError Summary) (retry_times : Nat) :
    Nat → List DownloadEvent × Nat × Except DownloadError Summary
  | 0 =>
    match oracle retry_times with
    | .ok s => ([], 1, .ok s)
    | .error e => ([], 1, .error e)
  | k' + 1 =>
    match oracle (retry_times - (k' + 1)) with
    | .ok s => ([], 1, .ok s)
    | .error (.ChecksumMisMatch u d) =>
      let (evs, n, r) := try_http_download_go oracle retry_times k'
      (.ChecksumMismatchRetry u (retry_times - (k' + 1)) :: evs, n + 1, r)
    | .error e => ([], 1, .error e)

/-- try_http_download (download.rs:91-137): run the loop from times = 0,
i.e. k = retry_times. -/
def try_http_download (oracle : Nat → Except DownloadError Summary) (retry_times : Nat) :
    List DownloadEvent × Nat × Except DownloadError Summary :=
  try_http_download_go oracle retry_times retry_times

/-- Stable insertion into a sorted list (insert after every element that
the new element is not less-or-equal to). -/
def stable_insert {α : Type} (le : α → α → Bool) (a : α) : List α → List α
  | [] => [a]
  | b :: l => if le a b then a :: b :: l else b :: stable_insert le a l

/-- Stable insertion sort.  Models sources.sort_by(|a, b|
a.source_type.cmp(&b.source_type)) at download.rs:39: the Rust slice
sort_by is stable, and for a comparator with only two key values every
stable sort returns the same list (proved below: the Local sources in
listed order, then the Http sources in listed order). -/
def stable_sort {α : Type} (le : α → α → Bool) : List α → List α
  | [] => []
  | a :: l => stable_insert le a (stable_sort le l)

/-- The sorted source list of try_download (download.rs:38-39). -/
def sort_sources (l : List DownloadSource) : List DownloadSource :=
  stable_sort (fun a b => source_type_le a.source_type b.source_type) l

/-- The CanNotGetSourceNextUrl event emitted for a failed source
(download.rs:82), as a function of the result of that source. -/
def fail_event : Except DownloadError Summary → DownloadEvent
  | .error e => .CanNotGetSourceNextUrl (dl_error_string e)
  | .ok _ => .CanNotGetSourceNextUrl []

/-- The source loop of try_download (download.rs:43-87).  `run c` is the
result of the one call made for source c (try_http_download for an Http
source, download_local for a Local source).  The loop breaks with the
first success; a failure of the last source (i == sources.len() - 1)
returns that error at once; a failure of an earlier source emits
CanNotGetSourceNextUrl and moves on.  The second component none models the
final res.unwrap() panicking (only reachable when the list is empty and
the loop body never ran). -/
def try_download_go (run : DownloadSource → Except DownloadError Summary) :
    List DownloadSource → List DownloadEvent × Option (Except DownloadError Summary)
  | [] => ([], none)
  | c :: rest =>
    match run c with
    | .ok s => ([], some (.ok s))
    | .error e =>
      match rest with
      | [] => ([], some (.error e))
      | _ :: _ =>
        let (evs, r) := try_download_go run rest
        (fail_event (.error e) :: evs, r)

/-- try_download (download.rs:25-88): sort the cloned source list by
source type, then run the loop. -/
def try_download (run : DownloadSource → Except DownloadError Summary)
    (entry : DownloadEntry) : List DownloadEvent × Option (Except DownloadError Summary) :=
  try_download_go run (sort_sources entry.source)

/-
oma-refresh (src/oma-refresh/src/inrelease.rs).
-/

/-- Classified type of one checksum-table entry
(inrelease.rs:22-30).  The payload of the two compressed variants is the
string the code computes for it. -/
inductive DistFileType
  | BinaryContents
  | Contents
  | CompressContents (s : Str)
  | PackageList
  | CompressPackageList (s : Str)
  | Release
  deriving DecidableEq

/-- One entry of the extracted checksum table (inrelease.rs:14-20). -/
structure ChecksumItem where
  name : Str
  size : Nat
  checksum : Str
  file_type : DistFileType
  deriving DecidableEq

/-- Error type of the release parser (inrelease.rs:32-54); payloads are the
strings the code passes. -/
inductive InReleaseParserError
  | BadInReleaseData
  | BadInReleaseVaildUntil
  | EarlierSignature (p : Str)
  | ExpiredSignature (p : Str)
  | BadSha256Value (p : Str)
  | BadChecksumEntry (line : Str)
  | InReleaseSyntaxError
  | UnsupportFileType
  | ParseIntError (s : Str)
  deriving DecidableEq

/-- file_is_compress (inrelease.rs:227-229). -/
def file_is_compress (name : Str) : Bool :=
  ends_with name (str ".gz") || ends_with name (str ".bz2") || ends_with name (str ".xz")

/-- The value x.split_once(dot).unwrap().0 used for the payload of the
compressed variants (inrelease.rs:193 and 200): the part of the name
before its first dot.  The unwrap is guarded by file_is_compress, which
forces a dot to exist, and then split_once returns some. -/
def stem_before_dot (s : Str) : Str := s.takeWhile (fun c => c ≠ '.')

/-- One line of the SHA256 field (inrelease.rs:143-155): tokenize by
whitespace and take the first three tokens as checksum, size, name; any
missing token is a BadChecksumEntry error carrying the whole line.
The returned triple is (name, size, checksum), the order in which the code
pushes it (line 154). -/
def parse_checksum_line (l : Str) : Except InReleaseParserError (Str × Str × Str) :=
  match whitespace_tokens l with
  | checksum :: size :: name :: _ => .ok (name, size, checksum)
  | _ => .error (.BadChecksumEntry l)

/-- The tokenizing loop over all SHA256 lines (inrelease.rs:143-155): the
first failing line aborts the whole parse with its error. -/
def parse_checksum_lines : List Str → Except InReleaseParserError (List (Str × Str × Str))
  | [] => .ok []
  | l :: rest =>
    match parse_checksum_line l with
    | .error e => .error e
    | .ok t =>
      match parse_checksum_lines rest with
      | .error e => .error e
      | .ok ts => .ok (t :: ts)

/-- The arch/component filter predicate (inrelease.rs:163-184). -/
def checksum_filter (arch : Str) (components : List Str) (name : Str) : Bool :=
  let name_split := split_char '/' name
  let component := name_split.head?
  let component_type := name_split[1]?
  let is_debian_installer := component_type == some (str "debian-installer")
  match component with
  | some c =>
    if c ≠ name then
      components.contains c &&
        ((contains_sub name (str "all") || contains_sub name arch) && !is_debian_installer)
    else
      contains_sub name (str "all") || contains_sub name arch
  | none => contains_sub name (str "all") || contains_sub name arch

/-- Model of the u64 parse of the size token (digits only; a value
at or above 2 ^ 64 overflows and fails; the rarely used leading sign
forms are not modelled). -/
def parse_u64 (s : Str) : Option Nat :=
  if s = [] then none
  else if s.all (fun c => c.isDigit) then
    let n := s.foldl (fun acc c => acc * 10 + (c.toNat - Char.toNat '0')) 0
    if n < U64MOD then some n else none
  else none

/-- The classification match on a surviving entry name
(inrelease.rs:190-207), arms in source order; none models the
warn-and-continue arm. -/
def classify_file (x : Str) : Option DistFileType :=
  if contains_sub x (str "BinContents") then some .BinaryContents
  else if contains_sub x (str "Contents-") && file_is_compress x && !contains_sub x (str "udeb") then
    some (.CompressContents (stem_before_dot x))
  else if contains_sub x (str "Contents-") && !contains_char x '.' && !contains_sub x (str "udeb") then
    some .Contents
  else if contains_sub x (str "Packages") && !contains_char x '.' then some .PackageList
  else if contains_sub x (str "Packages") && file_is_compress x then
    some (.CompressPackageList (stem_before_dot x))
  else if contains_sub x (str "Release") then some .Release
  else none

/-- The build loop over the surviving entries (inrelease.rs:189-218):
classify each name (skipping the unknown ones), parse the size as u64
(the first failing size aborts with ParseIntError), and collect
ChecksumItem records. -/
def build_checksum_items : List (Str × Str × Str) → Except InReleaseParserError (List ChecksumItem)
  | [] => .ok []
  | (name, size, checksum) :: rest =>
    match classify_file name with
    | none => build_checksum_items rest
    | some t =>
      match parse_u64 size with
      | none => .error (.ParseIntError size)
      | some n =>
        match build_checksum_items rest with
        | .error e => .error e
        | .ok items => .ok (⟨name, n, checksum, t⟩ :: items)

/-- The already-parsed fields of a release document that
InReleaseParser::new inspects.  The two dates are abstracted to integer
timestamps, standing for the chrono instants that parse_date returns
(the RFC 2822 parsing itself is not modelled); none means the field is
absent.  sha256 is the raw value of the SHA256 multi-line field. -/
structure InReleaseDoc where
  date : Option Int
  validUntil : Option Int
  sha256 : Option Str

/-- The checksum-table part of InReleaseParser::new, everything after the
freshness checks (inrelease.rs:131-224): require the SHA256 field, split
it at newlines and drop the first (empty) fragment, tokenize every line,
filter by component and architecture, fall back to the unfiltered list
when the filter leaves nothing (line 187), then classify and build the
items. -/
def inrelease_checksums (arch : Str) (components : List Str) (p : Str) (doc : InReleaseDoc) :
    Except InReleaseParserError (List ChecksumItem) :=
  match doc.sha256 with
  | none => .error (.BadSha256Value p)
  | some sha =>
    let lines := (split_char '\n' sha).drop 1
    match parse_checksum_lines lines with
    | .error e => .error e
    | .ok checksums_res =>
      let c := checksums_res.filter (fun t => checksum_filter arch components t.1)
      let c := if c = [] then checksums_res else c
      build_checksum_items c

/-- InReleaseParser::new after signature verification and paragraph
parsing (inrelease.rs:94-224), for a document whose date fields are
already parsed: for a non-flat repository require the Date field (absent
is BadInReleaseData), reject with EarlierSignature when now is before
Date, and, when a Valid-Until field is present, reject with
ExpiredSignature when now is after it; a flat repository skips all of
this.  Then extract the checksum table. -/
def inrelease_parser_new (now : Int) (is_flat : Bool) (arch : Str) (components : List Str)
    (p : Str) (doc : InReleaseDoc) : Except InReleaseParserError (List ChecksumItem) :=
  if !is_flat then
    match doc.date with
    | none => .error .BadInReleaseData
    | some date =>
      if now < date then .error (.EarlierSignature p)
      else
        match doc.validUntil with
        | some valid_until =>
          if now > valid_until then .error (.ExpiredSignature p)
          else inrelease_checksums arch components p doc
        | none => inrelease_checksums arch components p doc
  else inrelease_checksums arch components p doc

/-
oma-refresh (src/oma-refresh/src/db.rs) and the canonical URL escape of
src/src/update.rs.
-/

/-- Error type of the refresh orchestration (db.rs:35-58), restricted to
the constructors the modelled code can produce. -/
inductive RefreshError
  | InvaildUrl (s : Str)
  | UnsupportedProtocol (s : Str)
  | NoInReleaseFile (s : Str)
  deriving DecidableEq

/-- A configured source entry as read from sources.list.  The type comes
from the external apt-sources-lists crate; the fields modelled are the
ones db.rs reads (url, suite, components, options). -/
structure SourceEntry where
  url : Str
  suite : Str
  components : List Str
  options : Option Str
  deriving DecidableEq

/-- Modelled from the spec: SourceEntry::dist_path of the external
apt-sources-lists crate; for a non-flat entry the dist path is the url
followed by /dists/ and the suite. -/
def SourceEntry.dist_path (v : SourceEntry) : Str :=
  v.url ++ str "/dists/" ++ v.suite

/-- Transport derived for one entry (db.rs:143-147). -/
inductive OmaSourceEntryFrom
  | Http
  | Local
  deriving DecidableEq

/-- Normalized source entry (db.rs:131-141); from is renamed from_ because
from is reserved in Lean. -/
structure OmaSourceEntry where
  from_ : OmaSourceEntryFrom
  components : List Str
  url : Str
  suite : Str
  inrelease_path : Str
  dist_path : Str
  is_flat : Bool
  signed_by : Option Str
  deriving DecidableEq

/-- The signed-by extraction from the options string (db.rs:182-189). -/
def parse_signed_by (options : Option Str) : Option Str :=
  let opts := whitespace_tokens (options.getD [])
  (opts.find? (fun x => starts_with x (str "signed-by="))).map
    (fun x => x.drop (str "signed-by=").length)

/-- OmaSourceEntry::new (db.rs:154-201): derive the transport from the URL
scheme (http:// or https:// gives Http, file:// gives Local, anything else
is UnsupportedProtocol), flatness from empty components with suite "/",
the dist path, and the release-file path ({url}/Release for a flat
repository, {dist_path}/InRelease otherwise; empty components on a
non-flat entry are UnsupportedProtocol). -/
def OmaSourceEntry.new (v : SourceEntry) : Except RefreshError OmaSourceEntry :=
  let from? : Option OmaSourceEntryFrom :=
    if starts_with v.url (str "http://") || starts_with v.url (str "https://") then
      some .Http
    else if starts_with v.url (str "file://") then some .Local
    else none
  match from? with
  | none => .error (.UnsupportedProtocol v.url)
  | some f =>
    let components := v.components
    let url := v.url
    let suite := v.suite
    let (dist_path, is_flat) :=
      if components = [] ∧ suite = str "/" then (url, true) else (v.dist_path, false)
    let inrelease_path? : Option Str :=
      if is_flat then some (url ++ str "/Release")
      else if components ≠ [] then some (dist_path ++ str "/InRelease")
      else none
    match inrelease_path? with
    | none => .error (.UnsupportedProtocol v.url)
    | some inrelease_path =>
      .ok ⟨f, components, url, suite, inrelease_path, dist_path, is_flat,
        parse_signed_by v.options⟩

/-- The DownloadEntry that the stage-1 loop of update_db constructs, with
the argument order of the DownloadEntry::new calls at db.rs:229-236 and
242-249 (url, filename, dir, hash, allow_resume, source_type). -/
structure RefreshDownloadEntry where
  url : Str
  filename : Str
  dir : Str
  hash : Option Str
  allow_resume : Bool
  source_type : DownloadSourceType
  deriving DecidableEq

/-- The stage-1 release-file task list of update_db (db.rs:226-255): one
DownloadEntry per normalized entry for its inrelease_path.
database_filename (defined in the util module, not part of the given
source tree) is passed in as a function.  Both match arms construct the
task with DownloadSourceType::Http; in particular the Local arm at
db.rs:242-249 also passes Http. -/
def update_db_stage1_tasks (database_filename : Str → Str) (apt_list_dists : Str)
    (sources : List OmaSourceEntry) : List RefreshDownloadEntry :=
  sources.map (fun c =>
    match c.from_ with
    | .Http =>
      ⟨c.inrelease_path, database_filename c.inrelease_path, apt_list_dists, none, false, .Http⟩
    | .Local =>
      ⟨c.inrelease_path, database_filename c.inrelease_path, apt_list_dists, none, false, .Http⟩)

/-- FileName::new (src/src/update.rs:35-46): parse the URL (modelled as
reading the scheme, the characters before the first colon, and requiring
the URL to continue with colon-slash-slash, the shape reqwest::Url::parse
accepts for the http/https/file URLs this code handles; anything else is
the error case), strip the scheme:// head from the original string, and
replace every slash with an underscore. -/
def file_name_new (s : Str) : Option Str :=
  let scheme := s.takeWhile (fun c => c ≠ ':')
  if starts_with s (scheme ++ str "://") then
    some ((s.drop (scheme.length + 3)).map (fun c => if c = '/' then '_' else c))
  else none

/-
Supporting lemmas.
-/

theorem u64mod_pos : 0 < U64MOD := pow_pos (by norm_num) 64

theorem read_validate_loop_snd (reads : List Nat) (g : Nat) (hg : g < U64MOD) :
    (read_validate_loop reads g).2 = (g + reads.sum) % U64MOD := by
  induction reads generalizing g with
  | nil => simp [read_validate_loop, Nat.mod_eq_of_lt hg]
  | cons k rest ih =>
    rcases hrv : read_validate_loop rest (u64_add g k) with ⟨evs, g2⟩
    have h2 : (read_validate_loop rest (u64_add g k)).2 = (u64_add g k + rest.sum) % U64MOD :=
      ih (u64_add g k) (Nat.mod_lt _ u64mod_pos)
    simp only [read_validate_loop, hrv]
    rw [hrv] at h2
    simp only [u64_add] at h2 ⊢
    rw [h2, Nat.mod_add_mod]
    congr 1
    simp [List.sum_cons]
    omega

theorem read_validate_loop_inc_total (reads : List Nat) (g : Nat) :
    ev_global_inc_total (read_validate_loop reads g).1 = reads.sum := by
  induction reads generalizing g with
  | nil => simp [read_validate_loop, ev_global_inc_total]
  | cons k rest ih =>
    rcases hrv : read_validate_loop rest (u64_add g k) with ⟨evs, g2⟩
    have h2 := ih (u64_add g k)
    rw [hrv] at h2
    have h3 : ev_global_inc_total evs = rest.sum := h2
    simp only [read_validate_loop, hrv, ev_global_inc_total, List.sum_cons]
    omega

theorem read_validate_loop_no_done (reads : List Nat) (g : Nat) :
    count_progress_done (read_validate_loop reads g).1 = 0 := by
  induction reads generalizing g with
  | nil => simp [read_validate_loop, count_progress_done]
  | cons k rest ih =>
    rcases hrv : read_validate_loop rest (u64_add g k) with ⟨evs, g2⟩
    have h2 := ih (u64_add g k)
    rw [hrv] at h2
    simp only [read_validate_loop, hrv, count_progress_done]
    exact h2

theorem count_progress_done_append (a b : List DownloadEvent) :
    count_progress_done (a ++ b) = count_progress_done a + count_progress_done b := by
  induction a with
  | nil => simp [count_progress_done]
  | cons x rest ih =>
    cases x <;> simp [count_progress_done, ih] <;> omega

theorem ev_global_inc_total_append (a b : List DownloadEvent) :
    ev_global_inc_total (a ++ b) = ev_global_inc_total a + ev_global_inc_total b := by
  induction a with
  | nil => simp [ev_global_inc_total]
  | cons x rest ih =>
    cases x <;> simp [ev_global_inc_total, ih] <;> omega

theorem http_download_precheck_match_eq
    (sha_match : List Nat → Str → Bool) (entry : DownloadEntry)
    (content : List Nat) (reads : List Nat) (g lc : Nat) (ctx : Option Str) (h : Str)
    (hh : entry.hash = some h) (hm : sha_match content h = true) :
    http_download_precheck sha_match entry (some content) reads g lc ctx =
      .done ((read_validate_loop reads g).1 ++ [.ProgressDone])
        (read_validate_loop reads g).2
        (Summary.new entry.filename false lc ctx) := by
  rcases hrv : read_validate_loop reads g with ⟨evs, g1⟩
  unfold http_download_precheck
  rw [hh]
  simp [hrv, hm]

/-
Claim theorems: C1 and C2 (the pre-existing-file check of http_download).
-/

/-- C1: for every download plan whose destination file already exists and
whose contents match the expected checksum, http_download returns before
any HEAD or GET is issued (zero body requests), emits the read-loop
GlobalProgressInc events followed by exactly one ProgressDone, adds the
read bytes to the global progress counter, and returns a Summary whose
hit-cache flag is true. -/
theorem claim_c1_cache_hit
    (sha_match : List Nat → Str → Bool) (entry : DownloadEntry)
    (content : List Nat) (reads : List Nat) (global list_count : Nat)
    (context : Option Str) (h : Str)
    (hhash : entry.hash = some h)
    (hmatch : sha_match content h = true)
    (hreads : reads.sum = content.length)
    (hg : global < U64MOD) :
    http_download_precheck sha_match entry (some content) reads global list_count context =
      .done ((read_validate_loop reads global).1 ++ [.ProgressDone])
        ((global + content.length) % U64MOD)
        (Summary.new entry.filename false list_count context) ∧
    count_progress_done ((read_validate_loop reads global).1 ++ [.ProgressDone]) = 1 ∧
    ev_global_inc_total ((read_validate_loop reads global).1 ++ [.ProgressDone]) =
      content.length ∧
    (http_download_precheck sha_match entry (some content) reads global
      list_count context).body_requests = 0 ∧
    (Summary.new entry.filename false list_count context).hit = true := by
  have heq := http_download_precheck_match_eq sha_match entry content reads global
    list_count context h hhash hmatch
  have hsnd := read_validate_loop_snd reads global hg
  rw [hreads] at hsnd
  refine ⟨?_, ?_, ?_, ?_, rfl⟩
  · rw [heq, hsnd]
  · rw [count_progress_done_append, read_validate_loop_no_done]
    rfl
  · rw [ev_global_inc_total_append, read_validate_loop_inc_total, hreads]
    rfl
  · rw [heq]
    rfl

/-- Witness for C1 at a concrete plan: file content of three bytes read in
one chunk, matching checksum, counter 5. -/
theorem claim_c1_cache_hit_witness :
    http_download_precheck (fun _ _ => true)
        ⟨[], str "f", str "d", some (str "h"), false, false⟩
        (some [1, 2, 3]) [3] 5 0 none =
      .done ((read_validate_loop [3] 5).1 ++ [.ProgressDone]) ((5 + 3) % U64MOD)
        (Summary.new (str "f") false 0 none) ∧
    count_progress_done ((read_validate_loop [3] 5).1 ++ [.ProgressDone]) = 1 ∧
    ev_global_inc_total ((read_validate_loop [3] 5).1 ++ [.ProgressDone]) = 3 ∧
    (http_download_precheck (fun _ _ => true)
        ⟨[], str "f", str "d", some (str "h"), false, false⟩
        (some [1, 2, 3]) [3] 5 0 none).body_requests = 0 ∧
    (Summary.new (str "f") false 0 none).hit = true :=
  claim_c1_cache_hit (fun _ _ => true)
    ⟨[], str "f", str "d", some (str "h"), false, false⟩
    [1, 2, 3] [3] 5 0 none (str "h") rfl rfl (by decide) (by decide)

/-- C2 (code behavior at the failing input): with an existing 4-byte file
failing the checksum and allow_resume = false, starting from global
counter 10, the code adds the 4 read bytes (counter 14), then calls
fetch_sub with the 4 read bytes twice, leaving the counter at 6 and
emitting GlobalProgressSet 10 (the value after the first subtraction);
a single subtraction of the read bytes, as the claim states, would leave
the counter at 10. -/
theorem claim_c2_double_subtract :
    http_download_precheck (fun _ _ => false)
        ⟨[], str "f", str "d", some (str "h"), false, false⟩
        (some [1, 2, 3, 4]) [4] 10 0 none =
      .proceed [.GlobalProgressInc 4, .GlobalProgressSet 10] 6 false ∧
    u64_sub (u64_add 10 4) 4 = 10 ∧
    (6 : Nat) ≠ 10 := by
  refine ⟨?_, by decide, by decide⟩
  decide

/-
Claim theorem: C4 (the retry loop of try_http_download).
-/

theorem try_http_download_go_spec (oracle : Nat → Except DownloadError Summary)
    (retry_times : Nat) :
    ∀ k, k ≤ retry_times →
      1 ≤ (try_http_download_go oracle retry_times k).2.1 ∧
      (try_http_download_go oracle retry_times k).2.1 ≤ k + 1 ∧
      (try_http_download_go oracle retry_times k).2.2 =
        oracle ((retry_times - k) + ((try_http_download_go oracle retry_times k).2.1 - 1)) ∧
      ∀ j, j < (try_http_download_go oracle retry_times k).2.1 - 1 →
        ∃ u d, oracle ((retry_times - k) + j) = .error (.ChecksumMisMatch u d) := by
  intro k
  induction k with
  | zero =>
    intro _
    rcases horacle : oracle retry_times with e | s
    · simp [try_http_download_go, horacle]
    · simp [try_http_download_go, horacle]
  | succ k' ih =>
    intro hk
    have hk' : k' ≤ retry_times := Nat.le_of_succ_le hk
    rcases horacle : oracle (retry_times - (k' + 1)) with e | s
    · cases e with
      | ChecksumMisMatch u d =>
        rcases hgo : try_http_download_go oracle retry_times k' with ⟨evs, n, r⟩
        have hspec := ih hk'
        rw [hgo] at hspec
        obtain ⟨h1, h2, h3, h4⟩ := hspec
        have h1' : 1 ≤ n := h1
        have h2' : n ≤ k' + 1 := h2
        have h3' : r = oracle ((retry_times - k') + (n - 1)) := h3
        have h4' : ∀ j, j < n - 1 →
            ∃ u0 d0, oracle ((retry_times - k') + j) = .error (.ChecksumMisMatch u0 d0) := h4
        have hidx : retry_times - k' = (retry_times - (k' + 1)) + 1 := by omega
        simp only [try_http_download_go, horacle, hgo]
        refine ⟨by omega, by omega, ?_, ?_⟩
        · have : (retry_times - (k' + 1)) + (n + 1 - 1) = (retry_times - k') + (n - 1) := by
            omega
          rw [this]
          exact h3'
        · intro j hj
          cases j with
          | zero => exact ⟨u, d, by simpa using horacle⟩
          | succ j0 =>
            have hj0 : j0 < n - 1 := by omega
            obtain ⟨u0, d0, hu⟩ := h4' j0 hj0
            refine ⟨u0, d0, ?_⟩
            have : (retry_times - (k' + 1)) + (j0 + 1) = (retry_times - k') + j0 := by omega
            rw [this]
            exact hu
      | NotFound u => simp [try_http_download_go, horacle]
      | InvaildURL u => simp [try_http_download_go, horacle]
      | FailedOpenLocalSourceFile f m => simp [try_http_download_go, horacle]
      | ReqwestError m => simp [try_http_download_go, horacle]
      | IOError m => simp [try_http_download_go, horacle]
    · simp [try_http_download_go, horacle]

/-- C4: for one source, at most retry_times + 1 calls of http_download are
made (each issues at most one GET body request), the loop result is the
result of the last call, every call that was followed by another one had
returned a ChecksumMisMatch error, and a non-ChecksumMisMatch error of the
first call terminates the source at once with that error. -/
theorem claim_c4_retry_bound (oracle : Nat → Except DownloadError Summary)
    (retry_times : Nat) :
    (1 ≤ (try_http_download oracle retry_times).2.1 ∧
      (try_http_download oracle retry_times).2.1 ≤ retry_times + 1) ∧
    (try_http_download oracle retry_times).2.2 =
      oracle ((try_http_download oracle retry_times).2.1 - 1) ∧
    (∀ j, j < (try_http_download oracle retry_times).2.1 - 1 →
      ∃ u d, oracle j = .error (.ChecksumMisMatch u d)) ∧
    (∀ e, oracle 0 = .error e → (∀ u d, e ≠ .ChecksumMisMatch u d) →
      (try_http_download oracle retry_times).2.1 = 1 ∧
      (try_http_download oracle retry_times).2.2 = .error e) := by
  simp only [try_http_download]
  have hspec := try_http_download_go_spec oracle retry_times retry_times le_rfl
  obtain ⟨h1, h2, h3, h4⟩ := hspec
  rw [Nat.sub_self] at h3 h4
  simp only [Nat.zero_add] at h3 h4
  refine ⟨⟨h1, h2⟩, h3, h4, ?_⟩
  intro e he hne
  by_cases hn : (try_http_download_go oracle retry_times retry_times).2.1 = 1
  · refine ⟨hn, ?_⟩
    rw [h3, hn]
    simpa using he
  · exfalso
    obtain ⟨u, d, hu⟩ := h4 0 (by omega)
    rw [he] at hu
    exact hne u d (by injection hu)

/-- Witness for C4: an oracle whose first call is a checksum mismatch and
whose second call succeeds, with retry_times = 3. -/
def oracle_c4 : Nat → Except DownloadError Summary := fun n =>
  if n = 0 then .error (.ChecksumMisMatch (str "u") (str "d"))
  else .ok (Summary.new (str "f") true 1 none)

theorem claim_c4_retry_bound_witness :
    (1 ≤ (try_http_download oracle_c4 3).2.1 ∧ (try_http_download oracle_c4 3).2.1 ≤ 3 + 1) ∧
    (try_http_download oracle_c4 3).2.2 =
      oracle_c4 ((try_http_download oracle_c4 3).2.1 - 1) ∧
    (∃ u d, oracle_c4 0 = .error (.ChecksumMisMatch u d)) :=
  ⟨(claim_c4_retry_bound oracle_c4 3).1, (claim_c4_retry_bound oracle_c4 3).2.1,
    (claim_c4_retry_bound oracle_c4 3).2.2.1 0 (by decide)⟩


/-
Claim theorems: C5 and C10 (source ordering and fallback of try_download).
-/

/-- Whether a source is a Local source. -/
def is_local_source (c : DownloadSource) : Bool :=
  match c.source_type with
  | .Local => true
  | .Http => false

/-- Whether a source is an Http source. -/
def is_http_source (c : DownloadSource) : Bool :=
  match c.source_type with
  | .Local => false
  | .Http => true

theorem stable_insert_append {α : Type} (le : α → α → Bool) (a : α) (P Q : List α)
    (hP : ∀ p ∈ P, le a p = false) :
    stable_insert le a (P ++ Q) = P ++ stable_insert le a Q := by
  induction P with
  | nil => rfl
  | cons p ps ih =>
    have hp : le a p = false := hP p (List.mem_cons_self p ps)
    simp only [List.cons_append, stable_insert, hp, Bool.false_eq_true, if_false,
      List.cons.injEq, true_and]
    exact ih (fun q hq => hP q (List.mem_cons_of_mem p hq))

theorem stable_insert_front {α : Type} (le : α → α → Bool) (a : α) (Q : List α)
    (hQ : ∀ b, Q.head? = some b → le a b = true) :
    stable_insert le a Q = a :: Q := by
  cases Q with
  | nil => rfl
  | cons b t => simp [stable_insert, hQ b rfl]

theorem sort_sources_decomp (l : List DownloadSource) :
    sort_sources l = l.filter is_local_source ++ l.filter is_http_source := by
  induction l with
  | nil => rfl
  | cons a l ih =>
    have hstep : sort_sources (a :: l) =
        stable_insert (fun x y => source_type_le x.source_type y.source_type) a
          (sort_sources l) := rfl
    rw [hstep, ih]
    rcases ht : a.source_type with _ | _
    · -- Http: skip all Local sources, then insert at the front of the Http block
      have hP : ∀ p ∈ l.filter is_local_source,
          source_type_le a.source_type p.source_type = false := by
        intro p hp
        have := List.of_mem_filter hp
        rw [ht]
        cases hpt : p.source_type with
        | Http => rw [is_local_source, hpt] at this; cases this
        | Local => rfl
      have hQ : ∀ b, (l.filter is_http_source).head? = some b →
          source_type_le a.source_type b.source_type = true := by
        intro b hb
        have hmem : b ∈ l.filter is_http_source := List.mem_of_mem_head? hb
        have := List.of_mem_filter hmem
        rw [ht]
        cases hbt : b.source_type with
        | Http => rfl
        | Local => rw [is_http_source, hbt] at this; cases this
      rw [stable_insert_append _ _ _ _ hP, stable_insert_front _ _ _ hQ]
      have hfl : (a :: l).filter is_local_source = l.filter is_local_source := by
        simp [List.filter, is_local_source, ht]
      have hfh : (a :: l).filter is_http_source = a :: l.filter is_http_source := by
        simp [List.filter, is_http_source, ht]
      rw [hfl, hfh]
    · -- Local: goes to the very front
      have hQ : ∀ b, (l.filter is_local_source ++ l.filter is_http_source).head? = some b →
          source_type_le a.source_type b.source_type = true := by
        intro b _
        rw [ht]
        rfl
      rw [stable_insert_front _ _ _ hQ]
      have hfl : (a :: l).filter is_local_source = a :: l.filter is_local_source := by
        simp [List.filter, is_local_source, ht]
      have hfh : (a :: l).filter is_http_source = l.filter is_http_source := by
        simp [List.filter, is_http_source, ht]
      rw [hfl, hfh]
      rfl

theorem stable_insert_length {α : Type} (le : α → α → Bool) (a : α) (l : List α) :
    (stable_insert le a l).length = l.length + 1 := by
  induction l with
  | nil => rfl
  | cons b t ih =>
    simp only [stable_insert]
    by_cases h : le a b = true
    · simp [h]
    · simp only [Bool.not_eq_true] at h
      simp [h, ih]

theorem sort_sources_length (l : List DownloadSource) :
    (sort_sources l).length = l.length := by
  induction l with
  | nil => rfl
  | cons a t ih =>
    have hstep : sort_sources (a :: t) =
        stable_insert (fun x y => source_type_le x.source_type y.source_type) a
          (sort_sources t) := rfl
    rw [hstep, stable_insert_length, ih]
    rfl

theorem try_download_go_cons (run : DownloadSource → Except DownloadError Summary)
    (c : DownloadSource) (rest : List DownloadSource) :
    try_download_go run (c :: rest) =
      match run c with
      | .ok s => ([], some (.ok s))
      | .error e =>
        match rest with
        | [] => ([], some (.error e))
        | _ :: _ =>
          (fail_event (.error e) :: (try_download_go run rest).1,
            (try_download_go run rest).2) := rfl

theorem try_download_go_cons_ok (run : DownloadSource → Except DownloadError Summary)
    (c : DownloadSource) (rest : List DownloadSource) (s : Summary) (h : run c = .ok s) :
    try_download_go run (c :: rest) = ([], some (.ok s)) := by
  rw [try_download_go_cons, h]

theorem try_download_go_single_err (run : DownloadSource → Except DownloadError Summary)
    (c : DownloadSource) (e : DownloadError) (h : run c = .error e) :
    try_download_go run [c] = ([], some (.error e)) := by
  rw [try_download_go_cons, h]

theorem try_download_go_cons_err (run : DownloadSource → Except DownloadError Summary)
    (c b : DownloadSource) (t : List DownloadSource) (e : DownloadError)
    (h : run c = .error e) :
    try_download_go run (c :: b :: t) =
      (fail_event (.error e) :: (try_download_go run (b :: t)).1,
        (try_download_go run (b :: t)).2) := by
  rw [try_download_go_cons, h]

theorem try_download_go_isSome (run : DownloadSource → Except DownloadError Summary)
    (l : List DownloadSource) (h : l ≠ []) : (try_download_go run l).2.isSome = true := by
  induction l with
  | nil => exact absurd rfl h
  | cons c rest ih =>
    rcases hr : run c with e | s
    · cases rest with
      | nil => rw [try_download_go_single_err run c e hr]; rfl
      | cons b t =>
        rw [try_download_go_cons_err run c b t e hr]
        exact ih (by simp)
    · rw [try_download_go_cons_ok run c rest s hr]
      rfl

theorem try_download_go_all_fail (run : DownloadSource → Except DownloadError Summary)
    (l : List DownloadSource) (hf : ∀ c ∈ l, ∃ e, run c = .error e) :
    ∀ cl, l.getLast? = some cl →
      try_download_go run l = (l.dropLast.map (fun c => fail_event (run c)), some (run cl)) := by
  induction l with
  | nil => intro cl h; cases h
  | cons c rest ih =>
    intro cl hlast
    obtain ⟨e, he⟩ := hf c (List.mem_cons_self c rest)
    cases rest with
    | nil =>
      have hcl : cl = c := by
        simp [List.getLast?] at hlast
        exact hlast.symm
      subst hcl
      rw [try_download_go_single_err run cl e he, he]
      rfl
    | cons b t =>
      have hlast2 : (b :: t).getLast? = some cl := by
        rw [List.getLast?_cons_cons] at hlast
        exact hlast
      have hrec := ih (fun x hx => hf x (List.mem_cons_of_mem c hx)) cl hlast2
      rw [try_download_go_cons_err run c b t e he, hrec, ← he]
      rfl

theorem try_download_go_error_all_fail (run : DownloadSource → Except DownloadError Summary)
    (l : List DownloadSource) (evs : List DownloadEvent) (e : DownloadError)
    (h : try_download_go run l = (evs, some (.error e))) :
    ∀ c ∈ l, ∃ e0, run c = .error e0 := by
  induction l generalizing evs with
  | nil =>
    simp [try_download_go] at h
  | cons c rest ih =>
    intro x hx
    rcases hr : run c with e0 | s
    · rcases List.mem_cons.mp hx with rfl | hx2
      · exact ⟨e0, hr⟩
      · cases rest with
        | nil => cases hx2
        | cons b t =>
          rw [try_download_go_cons_err run c b t e0 hr] at h
          rcases hgo : try_download_go run (b :: t) with ⟨evs2, r⟩
          rw [hgo] at h
          have hr2 : r = some (.error e) := congrArg Prod.snd h
          exact ih evs2 (by rw [hgo, hr2]) x hx2
    · rw [try_download_go_cons_ok run c rest s hr] at h
      have := congrArg Prod.snd h
      simp at this

theorem try_download_go_first_success (run : DownloadSource → Except DownloadError Summary)
    (pre : List DownloadSource) (c : DownloadSource) (post : List DownloadSource) (s : Summary)
    (hpre : ∀ p ∈ pre, ∃ e, run p = .error e) (hc : run c = .ok s) :
    try_download_go run (pre ++ c :: post) =
      (pre.map (fun p => fail_event (run p)), some (.ok s)) := by
  induction pre with
  | nil => simpa using try_download_go_cons_ok run c post s hc
  | cons p ps ih =>
    obtain ⟨e, he⟩ := hpre p (List.mem_cons_self p ps)
    have hrec := ih (fun x hx => hpre x (List.mem_cons_of_mem p hx))
    rcases hrest : ps ++ c :: post with _ | ⟨b, t⟩
    · exact absurd hrest (List.append_ne_nil_of_right_ne_nil ps (List.cons_ne_nil c post))
    · rw [hrest] at hrec
      have hstep : try_download_go run (p :: ps ++ c :: post) =
          try_download_go run (p :: b :: t) := by rw [List.cons_append, hrest]
      rw [List.cons_append, hrest, try_download_go_cons_err run p b t e he, hrec, ← he]
      rfl

/-- C5: try_download attempts the sources in source-type order (the sorted
list is the Local sources in listed order followed by the Http sources in
listed order); when every source fails it emits one CanNotGetSourceNextUrl
event per non-last source and returns the last source error, and whenever
it returns an error every source had failed and the error is the last
source error. -/
theorem claim_c5_source_fallback (run : DownloadSource → Except DownloadError Summary)
    (entry : DownloadEntry) :
    (sort_sources entry.source =
      entry.source.filter is_local_source ++ entry.source.filter is_http_source) ∧
    (∀ cl, (sort_sources entry.source).getLast? = some cl →
      (∀ c ∈ sort_sources entry.source, ∃ e, run c = .error e) →
      try_download run entry =
        ((sort_sources entry.source).dropLast.map (fun c => fail_event (run c)),
          some (run cl))) ∧
    (∀ evs e, try_download run entry = (evs, some (.error e)) →
      (∀ c ∈ sort_sources entry.source, ∃ e0, run c = .error e0) ∧
      (∀ cl, (sort_sources entry.source).getLast? = some cl → run cl = .error e)) := by
  have hunfold : try_download run entry = try_download_go run (sort_sources entry.source) := rfl
  refine ⟨sort_sources_decomp entry.source, ?_, ?_⟩
  · intro cl hcl hf
    rw [hunfold]
    exact try_download_go_all_fail run _ hf cl hcl
  · intro evs e h
    rw [hunfold] at h
    have hall := try_download_go_error_all_fail run _ evs e h
    refine ⟨hall, ?_⟩
    intro cl hcl
    have hall2 := try_download_go_all_fail run _ hall cl hcl
    have hcomb := hall2.symm.trans h
    have hsnd : some (run cl) = some (.error e) := congrArg Prod.snd hcomb
    exact Option.some.inj hsnd

/-- Witness sources and entries for the try_download claims. -/
def src_local_w : DownloadSource := ⟨str "file:///a", .Local⟩

def src_http_w : DownloadSource := ⟨str "http://m/a", .Http⟩

def entry_c5_w : DownloadEntry :=
  ⟨[src_http_w, src_local_w], str "f", str "d", none, false, false⟩

def run_c5_w : DownloadSource → Except DownloadError Summary :=
  fun c => .error (.NotFound c.url)

/-- Witness for C5: a two-source plan (listed http then local) where both
sources fail; the local source is attempted first and the returned error is
the http (last) source error. -/
theorem claim_c5_source_fallback_witness :
    (sort_sources entry_c5_w.source =
      entry_c5_w.source.filter is_local_source ++ entry_c5_w.source.filter is_http_source) ∧
    try_download run_c5_w entry_c5_w =
      ((sort_sources entry_c5_w.source).dropLast.map (fun c => fail_event (run_c5_w c)),
        some (run_c5_w src_http_w)) :=
  ⟨(claim_c5_source_fallback run_c5_w entry_c5_w).1,
    (claim_c5_source_fallback run_c5_w entry_c5_w).2.1 src_http_w (by decide)
      (fun c _ => ⟨.NotFound c.url, rfl⟩)⟩

/-- C10: with a non-empty source list the final res.unwrap() of
try_download cannot panic: the result is some (the summary of the first
succeeding source in sorted order, or the last source error when all
fail); with an empty source list the loop never runs and the unwrap
panics (modelled as none). -/
theorem claim_c10_unwrap_safe (run : DownloadSource → Except DownloadError Summary)
    (entry : DownloadEntry) (hne : entry.source ≠ []) :
    ((try_download run entry).2).isSome = true ∧
    (∀ pre c post s, sort_sources entry.source = pre ++ c :: post →
      (∀ p ∈ pre, ∃ e, run p = .error e) → run c = .ok s →
      (try_download run entry).2 = some (.ok s)) ∧
    (∀ cl, (sort_sources entry.source).getLast? = some cl →
      (∀ c ∈ sort_sources entry.source, ∃ e, run c = .error e) →
      (try_download run entry).2 = some (run cl)) ∧
    (∀ entry2 : DownloadEntry, entry2.source = [] → (try_download run entry2).2 = none) := by
  have hunfold : try_download run entry = try_download_go run (sort_sources entry.source) := rfl
  have hsort_ne : sort_sources entry.source ≠ [] := by
    intro hnil
    have := sort_sources_length entry.source
    rw [hnil] at this
    exact hne (List.length_eq_zero.mp this.symm)
  refine ⟨?_, ?_, ?_, ?_⟩
  · rw [hunfold]
    exact try_download_go_isSome run _ hsort_ne
  · intro pre c post s hsplit hpre hc
    rw [hunfold, hsplit]
    rw [try_download_go_first_success run pre c post s hpre hc]
  · intro cl hcl hf
    rw [hunfold, try_download_go_all_fail run _ hf cl hcl]
  · intro entry2 h2
    have : try_download run entry2 = try_download_go run (sort_sources entry2.source) := rfl
    rw [this, h2]
    rfl

def entry_c10_w : DownloadEntry :=
  ⟨[src_http_w], str "f", str "d", none, false, false⟩

def run_c10_w : DownloadSource → Except DownloadError Summary :=
  fun _ => .ok (Summary.new (str "f") true 0 none)

def entry_empty_w : DownloadEntry := ⟨[], str "f", str "d", none, false, false⟩

/-- Witness for C10: a one-source plan whose source succeeds (the result is
some of that summary), and an empty-source plan (the unwrap panics). -/
theorem claim_c10_unwrap_safe_witness :
    ((try_download run_c10_w entry_c10_w).2).isSome = true ∧
    (try_download run_c10_w entry_c10_w).2 = some (.ok (Summary.new (str "f") true 0 none)) ∧
    (try_download run_c10_w entry_empty_w).2 = none :=
  ⟨(claim_c10_unwrap_safe run_c10_w entry_c10_w (by decide)).1,
    (claim_c10_unwrap_safe run_c10_w entry_c10_w (by decide)).2.1 [] src_http_w [] _
      (by decide) (fun p hp => absurd hp (List.not_mem_nil p)) rfl,
    (claim_c10_unwrap_safe run_c10_w entry_c10_w (by decide)).2.2.2 entry_empty_w rfl⟩

/-
Claim theorems: C6, C7 and C9 (the release parser).
-/

/-- Whether an Except value is a success. -/
def except_ok {ε α : Type} : Except ε α → Bool
  | .ok _ => true
  | .error _ => false

/-- C6: for a non-flat repository the parser rejects with EarlierSignature
whenever now is before the Date instant and with ExpiredSignature whenever
a Valid-Until instant is present and now is after it (given the Date check
passed); for a flat repository the parse equals the freshness-free
checksum extraction, so the same document is accepted whenever the rest of
the parse succeeds. -/
theorem claim_c6_freshness (now d : Int) (arch : Str) (components : List Str)
    (p : Str) (doc : InReleaseDoc) :
    (doc.date = some d → now < d →
      inrelease_parser_new now false arch components p doc = .error (.EarlierSignature p)) ∧
    (∀ v, doc.date = some d → ¬now < d → doc.validUntil = some v → now > v →
      inrelease_parser_new now false arch components p doc = .error (.ExpiredSignature p)) ∧
    (inrelease_parser_new now true arch components p doc =
      inrelease_checksums arch components p doc) ∧
    (except_ok (inrelease_checksums arch components p doc) = true →
      except_ok (inrelease_parser_new now true arch components p doc) = true) := by
  refine ⟨?_, ?_, rfl, ?_⟩
  · intro hd hlt
    simp [inrelease_parser_new, hd, hlt]
  · intro v hd hge hv hgt
    simp [inrelease_parser_new, hd, hge, hv, hgt]
  · intro h
    exact h

/-- Document and path used by the C6 witness. -/
def doc_c6_w : InReleaseDoc :=
  ⟨some 10, some 20, some (str "\nabc 1 main/Packages")⟩

/-- Witness for C6 at concrete instants: Date 10, Valid-Until 20; now 5 is
earlier than Date (EarlierSignature), now 25 is after Valid-Until
(ExpiredSignature), and the flat parse ignores both. -/
theorem claim_c6_freshness_witness :
    inrelease_parser_new 5 false (str "amd64") [str "main"] (str "P") doc_c6_w =
      .error (.EarlierSignature (str "P")) ∧
    inrelease_parser_new 25 false (str "amd64") [str "main"] (str "P") doc_c6_w =
      .error (.ExpiredSignature (str "P")) ∧
    inrelease_parser_new 5 true (str "amd64") [str "main"] (str "P") doc_c6_w =
      inrelease_checksums (str "amd64") [str "main"] (str "P") doc_c6_w :=
  ⟨(claim_c6_freshness 5 10 (str "amd64") [str "main"] (str "P") doc_c6_w).1 rfl (by decide),
    (claim_c6_freshness 25 10 (str "amd64") [str "main"] (str "P") doc_c6_w).2.1 20 rfl
      (by decide) rfl (by decide),
    (claim_c6_freshness 5 10 (str "amd64") [str "main"] (str "P") doc_c6_w).2.2.1⟩

/-- C7 counterexample: the payload the code stores in
CompressPackageList for the path main/binary-amd64/Packages.gz is the part
of the path before the first dot, not the gz compression algorithm that
the claim states. -/
theorem claim_c7_counterexample :
    checksum_filter (str "amd64") [str "main"] (str "main/binary-amd64/Packages.gz") = true ∧
    classify_file (str "main/binary-amd64/Packages.gz") =
      some (.CompressPackageList (str "main/binary-amd64/Packages")) ∧
    classify_file (str "main/binary-amd64/Packages.gz") ≠
      some (.CompressPackageList (str "gz")) := by
  refine ⟨by decide, by decide, by decide⟩

/-- C7 amended: a surviving path that names a Packages file (resp. a
Contents- file not containing udeb) and carries a .gz, .xz or .bz2
compression suffix is classified CompressPackageList(v) (resp.
CompressContents(v)) where v is the portion of the path before its first
dot, not the compression algorithm. -/
theorem claim_c7_compressed_classification (x : Str) :
    (contains_sub x (str "Packages") = true → file_is_compress x = true →
      contains_sub x (str "BinContents") = false →
      contains_sub x (str "Contents-") = false →
      classify_file x = some (.CompressPackageList (stem_before_dot x))) ∧
    (contains_sub x (str "Contents-") = true → file_is_compress x = true →
      contains_sub x (str "BinContents") = false →
      contains_sub x (str "udeb") = false →
      classify_file x = some (.CompressContents (stem_before_dot x))) := by
  constructor
  · intro hpack hcomp hbin hcont
    have hdot : contains_char x '.' = true := by
      have h3 : (ends_with x (str ".gz") = true ∨ ends_with x (str ".bz2") = true) ∨
          ends_with x (str ".xz") = true := by
        simpa [file_is_compress] using hcomp
      rcases h3 with (h | h) | h
      · exact ends_with_gz_contains_dot h
      · exact ends_with_bz2_contains_dot h
      · exact ends_with_xz_contains_dot h
    simp [classify_file, hpack, hcomp, hbin, hcont, hdot]
  · intro hcont hcomp hbin hudeb
    simp [classify_file, hcont, hcomp, hbin, hudeb]

/-- Witness for the amended C7 at two concrete paths, one Packages and one
Contents. -/
theorem claim_c7_compressed_classification_witness :
    classify_file (str "main/Packages.xz") =
      some (.CompressPackageList (stem_before_dot (str "main/Packages.xz"))) ∧
    classify_file (str "main/Contents-amd64.gz") =
      some (.CompressContents (stem_before_dot (str "main/Contents-amd64.gz"))) :=
  ⟨(claim_c7_compressed_classification (str "main/Packages.xz")).1
      (by decide) (by decide) (by decide) (by decide),
    (claim_c7_compressed_classification (str "main/Contents-amd64.gz")).2
      (by decide) (by decide) (by decide) (by decide)⟩

/-- C9: a SHA256 line is whitespace-tokenized as digest, size, path
(pushed as (path, size, digest)); it is rejected, always with
BadChecksumEntry carrying the line, exactly when it has fewer than three
tokens, and a list of lines that all carry at least three tokens is
accepted in full into the checksum token table. -/
theorem claim_c9_checksum_line (l : Str) (hl : l ≠ []) :
    (except_ok (parse_checksum_line l) = true ↔ 3 ≤ (whitespace_tokens l).length) ∧
    (∀ e, parse_checksum_line l = .error e → e = .BadChecksumEntry l) ∧
    (∀ d s p rest, whitespace_tokens l = d :: s :: p :: rest →
      parse_checksum_line l = .ok (p, s, d)) ∧
    (∀ lines : List Str, (∀ l2 ∈ lines, 3 ≤ (whitespace_tokens l2).length) →
      ∃ res, parse_checksum_lines lines = .ok res ∧ res.length = lines.length) := by
  refine ⟨?_, ?_, ?_, ?_⟩
  · rcases ht : whitespace_tokens l with _ | ⟨a, _ | ⟨b, _ | ⟨c, rest⟩⟩⟩ <;>
      simp [parse_checksum_line, ht, except_ok]
  · intro e he
    rcases ht : whitespace_tokens l with _ | ⟨a, _ | ⟨b, _ | ⟨c, rest⟩⟩⟩ <;>
      rw [parse_checksum_line, ht] at he <;> simp at he <;> exact he.symm
  · intro d s p rest ht
    rw [parse_checksum_line, ht]
  · intro lines hlines
    induction lines with
    | nil => exact ⟨[], rfl, rfl⟩
    | cons l2 ls ih =>
      have h3 : 3 ≤ (whitespace_tokens l2).length := hlines l2 (List.mem_cons_self l2 ls)
      obtain ⟨res, hres, hlen⟩ := ih (fun x hx => hlines x (List.mem_cons_of_mem l2 hx))
      rcases ht : whitespace_tokens l2 with _ | ⟨a, _ | ⟨b, _ | ⟨c, rest⟩⟩⟩
      · rw [ht] at h3; simp at h3
      · rw [ht] at h3; simp at h3
      · rw [ht] at h3; simp at h3
      · refine ⟨(c, b, a) :: res, ?_, by simp [hlen]⟩
        have hline : parse_checksum_line l2 = .ok (c, b, a) := by
          rw [parse_checksum_line, ht]
        rw [parse_checksum_lines, hline, hres]

/-- Witness for C9 at a concrete three-token line. -/
theorem claim_c9_checksum_line_witness :
    (except_ok (parse_checksum_line (str "abc 42 main/Packages")) = true ↔
      3 ≤ (whitespace_tokens (str "abc 42 main/Packages")).length) ∧
    parse_checksum_line (str "abc 42 main/Packages") =
      .ok (str "main/Packages", str "42", str "abc") ∧
    (∃ res, parse_checksum_lines [str "abc 42 main/Packages"] = .ok res ∧
      res.length = 1) :=
  ⟨(claim_c9_checksum_line (str "abc 42 main/Packages") (by decide)).1,
    (claim_c9_checksum_line (str "abc 42 main/Packages") (by decide)).2.2.1
      (str "abc") (str "42") (str "main/Packages") [] (by decide),
    (claim_c9_checksum_line (str "abc 42 main/Packages") (by decide)).2.2.2
      [str "abc 42 main/Packages"] (fun l2 hl2 => by
        rcases List.mem_singleton.mp hl2 with rfl
        decide)⟩

/-
Claim theorems: C3 (stage-1 plan for a local entry) and C8 (URL escape).
-/

/-- C3 (code behavior at the failing input): for the configured entry
url file:///srv/repo with suite "/" and no components, OmaSourceEntry::new
derives the Local transport, yet the stage-1 release-file task that
update_db builds for it carries DownloadSourceType::Http (db.rs:242-249),
the type that routes the fetch to try_http_download instead of
download_local in the try_download dispatch. -/
theorem claim_c3_local_entry_plan :
    (OmaSourceEntry.new ⟨str "file:///srv/repo", str "/", [], none⟩).map
      (fun o => o.from_) = .ok .Local ∧
    (OmaSourceEntry.new ⟨str "file:///srv/repo", str "/", [], none⟩).map
      (fun o => (update_db_stage1_tasks id (str "/var/lib/apt/lists") [o]).map
        (fun t => t.source_type)) = .ok [.Http] ∧
    DownloadSourceType.Http ≠ DownloadSourceType.Local := by
  refine ⟨by decide, by decide, by decide⟩

/-- C8 counterexample: two distinct URLs that FileName::new maps to the
same on-disk name a_b_c, because the slash-to-underscore replacement
identifies a slash with a literal underscore. -/
theorem claim_c8_counterexample :
    file_name_new (str "http://a/b/c") = some (str "a_b_c") ∧
    file_name_new (str "http://a/b_c") = some (str "a_b_c") ∧
    str "http://a/b/c" ≠ str "http://a/b_c" := by
  refine ⟨by decide, by decide, by decide⟩

/-- C8 amended: the escape always yields a name without path separators,
but it is not injective: distinct URLs can collide (for example URLs that
differ only in a slash versus an underscore). -/
theorem claim_c8_escape_no_separator :
    (∀ s r, file_name_new s = some r → '/' ∉ r) ∧
    (∃ u v, u ≠ v ∧ file_name_new u = file_name_new v ∧
      (file_name_new u).isSome = true) := by
  constructor
  · intro s r h
    unfold file_name_new at h
    by_cases hs : starts_with s (s.takeWhile (fun c => c ≠ ':') ++ str "://") = true
    · rw [if_pos hs] at h
      have hr : r = (s.drop ((s.takeWhile (fun c => c ≠ ':')).length + 3)).map
          (fun c => if c = '/' then '_' else c) := (Option.some.inj h).symm
      subst hr
      intro hmem
      obtain ⟨c, _, hc⟩ := List.mem_map.mp hmem
      by_cases hc2 : c = '/'
      · rw [if_pos hc2] at hc
        cases hc
      · rw [if_neg hc2] at hc
        exact hc2 hc
    · rw [if_neg (by simpa using hs)] at h
      cases h
  · exact ⟨str "http://a/b/c", str "http://a/b_c", by decide, by decide, by decide⟩

/-- Witness for the amended C8: the no-separator half applied at a
concrete URL. -/
theorem claim_c8_escape_no_separator_witness :
    '/' ∉ str "a_b" :=
  claim_c8_escape_no_separator.1 (str "http://a/b") (str "a_b") (by decide)
